import Mathlib

/-
Shallow embedding of `src/acm_lib.ts` (voxeldon/acm_lib).

Modelling conventions:
* JS strings are `List Char` (`Label`).
* A scoreboard objective's participant collection is an insertion-ordered
  `List Entry`; `getParticipants()` returns the list, `setScore` updates an
  existing participant in place or appends a fresh one, and
  `removeParticipant` removes the given participant.
* `JSON.stringify` / `JSON.parse` are abstracted as a `Codec`; `dec`
  returning `none` models a `JSON.parse` exception.
* Thrown `Error`s are modelled with `Except FsErr`; the distinct error
  messages of the source map to the distinct `FsErr` constructors.
* `Directory.write` is declared `async` in the source but its body contains
  no `await`, so it runs synchronously and is modelled as a plain function.
* Console output (`console.warn`, `console.error`) is a side effect with no
  observable return value and is not modelled.
-/

namespace Acm

abbrev Label : Type := List Char

structure Entry where
  label : Label
  score : Int
  deriving DecidableEq

abbrev Objective : Type := List Entry

inductive FsErr : Type where
  | notFound : Label → FsErr
  | alreadyExists : Label → FsErr
  | notOwner : Label → Label → FsErr
  | parseFail : Label → FsErr
  deriving DecidableEq

/-- Source `JSON.stringify` / `JSON.parse` abstracted over the content type. -/
structure Codec (α : Type) where
  enc : α → Label
  dec : Label → Option α

/-- Source `ScoreboardObjective.setScore(label, score)`: update the score of an
existing participant, or add a new participant at the end. -/
def setScore (obj : Objective) (label : Label) (score : Int) : Objective :=
  if obj.any (fun e => e.label == label) then
    obj.map (fun e => if e.label == label then { e with score := score } else e)
  else obj ++ [{ label := label, score := score }]

/-- Source `ScoreboardObjective.removeParticipant(identity)`: remove the participant
with the given display name. -/
def removeParticipant : Objective → Entry → Objective
  | [], _ => []
  | e :: rest, i => if e.label == i.label then rest else e :: removeParticipant rest i

/-- The encoded-label prefix for a file name: `fileName ++ ":"`. -/
def keyOf (f : Label) : Label := f ++ [':']

/-- JS `String.prototype.replace(pat, '')` with a string pattern: remove the
first (leftmost) occurrence of `pat`. -/
def replaceFirst (pat : Label) (s : Label) : Label :=
  if pat.isPrefixOf s then s.drop pat.length
  else
    match s with
    | [] => []
    | c :: rest => c :: replaceFirst pat rest

/-- JS `String.prototype.includes`: contiguous substring test. -/
def jsIncludes (s pat : Label) : Bool :=
  match s with
  | [] => pat.isEmpty
  | c :: rest => pat.isPrefixOf (c :: rest) || jsIncludes rest pat

/-- Source `Directory`: `dbId` is the backing objective's display name, `localId` the
(uppercased) identity string of the addon owning this code instance. -/
structure Directory where
  dbId : Label
  localId : Label
  deriving DecidableEq

/-- Source `Directory.getKeyIdentity`: first participant whose display name starts
with `fileName ++ ":"`. -/
def getKeyIdentity (obj : Objective) (f : Label) : Option Entry :=
  obj.find? (fun p => (keyOf f).isPrefixOf p.label)

/-- Source `Directory.getKeyData`: strip the first occurrence of `fileName ++ ":"`
from the entry's display name and `JSON.parse` the remainder. -/
def getKeyData {α : Type} (J : Codec α) (f : Label) (identity : Entry) : Except FsErr α :=
  match J.dec (replaceFirst (keyOf f) identity.label) with
  | some a => .ok a
  | none => .error (.parseFail identity.label)

/-- Source `Directory.isOwner`: throws when `localId` is not a substring of `dbId`,
otherwise returns `true` (it never returns `false`). -/
def Directory.isOwner (d : Directory) : Except FsErr Bool :=
  if jsIncludes d.dbId d.localId then .ok true
  else .error (.notOwner d.dbId d.localId)

/-- Source `Directory.exists`. -/
def existsFile (obj : Objective) (f : Label) : Bool :=
  (getKeyIdentity obj f).isSome

/-- Source `Directory.read`. -/
def Directory.read {α : Type} (J : Codec α) (obj : Objective) (f : Label) :
    Except FsErr α :=
  if existsFile obj f = false then .error (.notFound f)
  else
    match getKeyIdentity obj f with
    | none => .error (.notFound f)
    | some identity => getKeyData J f identity

/-- Source `Directory.write`. The dead `.ok false` branch mirrors
`if (!this.isOwner()) return;` in the source, which is unreachable because
`isOwner` never returns `false`. -/
def Directory.write {α : Type} (d : Directory) (J : Codec α) (obj : Objective)
    (f : Label) (content : α) (allowOverwrite : Bool) : Except FsErr Objective :=
  let dataKey : Label := keyOf f ++ J.enc content
  if existsFile obj f && !allowOverwrite then .error (.alreadyExists f)
  else
    match d.isOwner with
    | .error e => .error e
    | .ok true =>
      let slotNumber : Int := obj.length
      .ok (setScore obj dataKey slotNumber)
    | .ok false => .ok obj

/-- Source `Directory.delete`. -/
def Directory.delete (d : Directory) (obj : Objective) (f : Label) :
    Except FsErr Objective :=
  if existsFile obj f = false then .error (.notFound f)
  else
    match d.isOwner with
    | .error e => .error e
    | .ok true =>
      match getKeyIdentity obj f with
      | none => .error (.notFound f)
      | some identity => .ok (removeParticipant obj identity)
    | .ok false => .ok obj

/-- Source `Directory.rename`: read old content, delete the old entry, write the new
entry (with the source's default `allowOverwrite = true`). -/
def Directory.rename {α : Type} (d : Directory) (J : Codec α) (obj : Objective)
    (oldFileName newFileName : Label) : Except FsErr Objective :=
  if existsFile obj oldFileName = false then .error (.notFound oldFileName)
  else if existsFile obj newFileName then .error (.alreadyExists newFileName)
  else
    match d.isOwner with
    | .error e => .error e
    | .ok true =>
      match getKeyIdentity obj oldFileName with
      | none => .error (.notFound oldFileName)
      | some identity =>
        match getKeyData J oldFileName identity with
        | .error e => .error e
        | .ok content =>
          match d.delete obj oldFileName with
          | .error e => .error e
          | .ok obj2 => d.write J obj2 newFileName content true
    | .ok false => .ok obj

/-- Source `Directory.copy`: write the source content to the destination without
touching the source entry. -/
def Directory.copy {α : Type} (d : Directory) (J : Codec α) (obj : Objective)
    (sourceFileName destinationFileName : Label) : Except FsErr Objective :=
  if existsFile obj sourceFileName = false then .error (.notFound sourceFileName)
  else if existsFile obj destinationFileName then
    .error (.alreadyExists destinationFileName)
  else
    match d.isOwner with
    | .error e => .error e
    | .ok true =>
      match getKeyIdentity obj sourceFileName with
      | none => .error (.notFound sourceFileName)
      | some identity =>
        match getKeyData J sourceFileName identity with
        | .error e => .error e
        | .ok content => d.write J obj destinationFileName content true
    | .ok false => .ok obj

/-! ## Directory Registry (`FsSys` / `FsDir`) -/

/-- The host `Scoreboard`: named objectives in creation order. Objective ids
are unique in the host (`addObjective` on an existing id throws), so theorems
about deletion assume the name column is duplicate-free. -/
abbrev Scoreboard : Type := List (Label × Objective)

/-- Source `Scoreboard.getObjective`. -/
def getObjective (sb : Scoreboard) (name : Label) : Option Objective :=
  (sb.find? (fun o => o.1 == name)).map (fun o => o.2)

/-- Source `Scoreboard.addObjective` (only called on names that do not exist yet). -/
def addObjective (sb : Scoreboard) (name : Label) : Scoreboard :=
  sb ++ [(name, [])]

/-- Source `Scoreboard.removeObjective`. -/
def removeObjective : Scoreboard → Label → Scoreboard
  | [], _ => []
  | (n, o) :: rest, name =>
    if n == name then rest else (n, o) :: removeObjective rest name

/-- Source `FsDir`: the directory registry, holding the ledger-name formatter
(`FsSys._format`, a constructor parameter in the source). -/
structure FsDir where
  format : Label → Label

/-- Source `FsDir.isValid`. -/
def FsDir.isValid (fd : FsDir) (sb : Scoreboard) (name : Label) : Bool :=
  (getObjective sb (fd.format name)).isSome

/-- Source `FsDir.get`: resolve without creating. `Directory.create` reads the
ambient addon identity, passed here as `localId`. -/
def FsDir.get (fd : FsDir) (localId : Label) (sb : Scoreboard) (name : Label) :
    Option Directory :=
  match getObjective sb (fd.format name) with
  | none => none
  | some _ => some { dbId := fd.format name, localId := localId }

/-- Source `FsDir.new`. `ignoreWarn` only suppresses a `console.warn` in the source
and has no observable effect here. When the formatted name is already valid
but `get` returns `undefined` the source falls through to `addObjective`;
that (dead) fall-through is preserved. -/
def FsDir.new (fd : FsDir) (localId : Label) (sb : Scoreboard) (name : Label)
    (_ignoreWarn : Bool) : Scoreboard × Directory :=
  let formatedName : Label := fd.format name
  if fd.isValid sb name then
    match fd.get localId sb name with
    | some db => (sb, db)
    | none =>
      (addObjective sb formatedName, { dbId := formatedName, localId := localId })
  else (addObjective sb formatedName, { dbId := formatedName, localId := localId })

/-- Source `FsDir.delete`: resolution goes through `get`, then the ledger is
removed. -/
def FsDir.delete (fd : FsDir) (localId : Label) (sb : Scoreboard) (name : Label) :
    Except FsErr Scoreboard :=
  match fd.get localId sb name with
  | none => .error (.notFound name)
  | some _ => .ok (removeObjective sb (fd.format name))

/-! ## Signal Bus

Callbacks are identified by their JS object identity; we model identities as
`CallbackId := Nat`. Each of the four channel classes keeps its subscribers
in a `private static Set`, modelled as one insertion-ordered duplicate-free
list per channel inside `BusState`; instances of the channel classes carry no
fields at all, exactly like the source classes (whose constructors are empty).
Invoking a callback on the emitted payload is abstracted as
`run : CallbackId → Except Label Unit`, where `Except.error` models a thrown
exception. -/

abbrev CallbackId : Type := Nat

/-- JS `Set.add` (insertion order, duplicate identities ignored). -/
def SignalSet.add (s : List CallbackId) (c : CallbackId) : List CallbackId :=
  if s.contains c then s else s ++ [c]

/-- JS `Set.delete` (removal by identity). -/
def SignalSet.remove (s : List CallbackId) (c : CallbackId) : List CallbackId :=
  s.erase c

/-- The `emit` loop shared by all four signal classes: invoke every
subscriber in order; a thrown error is caught, logged (recorded as
`some message` in the returned trace) and delivery continues; nothing
propagates to the emitter. -/
def emitLoop (run : CallbackId → Except Label Unit) :
    List CallbackId → List (CallbackId × Option Label)
  | [] => []
  | c :: rest =>
    match run c with
    | .ok _ => (c, none) :: emitLoop run rest
    | .error e => (c, some e) :: emitLoop run rest

/-- Class-level (static) subscriber sets of the four signal classes. -/
structure BusState where
  addonReadySubs : List CallbackId
  customSignalSubs : List CallbackId
  settingsChangedSubs : List CallbackId
  extensionTriggerdSubs : List CallbackId
  deriving DecidableEq

structure OnAddonReadyEventSignal

structure OnCustomSignalEmittedEventSignal

structure OnSettingsChangedEventSignal

structure OnExtensionTriggerdEventSignal

def OnAddonReadyEventSignal.create : OnAddonReadyEventSignal := {}

def OnCustomSignalEmittedEventSignal.create : OnCustomSignalEmittedEventSignal := {}

def OnSettingsChangedEventSignal.create : OnSettingsChangedEventSignal := {}

def OnExtensionTriggerdEventSignal.create : OnExtensionTriggerdEventSignal := {}

/-- Instance method writing to the class-level set (the source also returns
the callback itself, to allow later unsubscribe-by-reference). -/
def OnAddonReadyEventSignal.subscribe (_self : OnAddonReadyEventSignal)
    (st : BusState) (c : CallbackId) : BusState :=
  { st with addonReadySubs := SignalSet.add st.addonReadySubs c }

def OnAddonReadyEventSignal.unsubscribe (_self : OnAddonReadyEventSignal)
    (st : BusState) (c : CallbackId) : BusState :=
  { st with addonReadySubs := SignalSet.remove st.addonReadySubs c }

/-- Static `emit`. -/
def OnAddonReadyEventSignal.emit (st : BusState)
    (run : CallbackId → Except Label Unit) : List (CallbackId × Option Label) :=
  emitLoop run st.addonReadySubs

def OnCustomSignalEmittedEventSignal.subscribe (_self : OnCustomSignalEmittedEventSignal)
    (st : BusState) (c : CallbackId) : BusState :=
  { st with customSignalSubs := SignalSet.add st.customSignalSubs c }

def OnCustomSignalEmittedEventSignal.unsubscribe (_self : OnCustomSignalEmittedEventSignal)
    (st : BusState) (c : CallbackId) : BusState :=
  { st with customSignalSubs := SignalSet.remove st.customSignalSubs c }

def OnCustomSignalEmittedEventSignal.emit (st : BusState)
    (run : CallbackId → Except Label Unit) : List (CallbackId × Option Label) :=
  emitLoop run st.customSignalSubs

def OnSettingsChangedEventSignal.subscribe (_self : OnSettingsChangedEventSignal)
    (st : BusState) (c : CallbackId) : BusState :=
  { st with settingsChangedSubs := SignalSet.add st.settingsChangedSubs c }

def OnSettingsChangedEventSignal.unsubscribe (_self : OnSettingsChangedEventSignal)
    (st : BusState) (c : CallbackId) : BusState :=
  { st with settingsChangedSubs := SignalSet.remove st.settingsChangedSubs c }

def OnSettingsChangedEventSignal.emit (st : BusState)
    (run : CallbackId → Except Label Unit) : List (CallbackId × Option Label) :=
  emitLoop run st.settingsChangedSubs

def OnExtensionTriggerdEventSignal.subscribe (_self : OnExtensionTriggerdEventSignal)
    (st : BusState) (c : CallbackId) : BusState :=
  { st with extensionTriggerdSubs := SignalSet.add st.extensionTriggerdSubs c }

def OnExtensionTriggerdEventSignal.unsubscribe (_self : OnExtensionTriggerdEventSignal)
    (st : BusState) (c : CallbackId) : BusState :=
  { st with extensionTriggerdSubs := SignalSet.remove st.extensionTriggerdSubs c }

def OnExtensionTriggerdEventSignal.emit (st : BusState)
    (run : CallbackId → Except Label Unit) : List (CallbackId × Option Label) :=
  emitLoop run st.extensionTriggerdSubs

/-! ## Settings loading (`AcmLibrary`) -/

/-- Source `AcmLibrary.getRawSettingsData`: the first participant whose score is
exactly `0`. -/
def getRawSettingsData (db : Objective) : Option Entry :=
  db.find? (fun participant => participant.score == 0)

/-- Source `AcmLibrary.processFlatSettings`. The JSON widget decoding and per-widget
value extraction (`parseSettingsArray` followed by `processSetting` over each
widget) are abstracted as `parse` applied to the raw blob. -/
def processFlatSettings (parse : Label → List (Label × Label))
    (db : Option Objective) : List (Label × Label) :=
  match db with
  | none => []
  | some d =>
    match getRawSettingsData d with
    | none => []
    | some rawSettingsData => parse rawSettingsData.label

/-- Source `AcmLibrary.processCategorySettings` (identical per-ledger logic against
the category's dedicated database). -/
def processCategorySettings (parse : Label → List (Label × Label))
    (db : Option Objective) : List (Label × Label) :=
  match db with
  | none => []
  | some d =>
    match getRawSettingsData d with
    | none => []
    | some rawSettingsData => parse rawSettingsData.label

/-! ## Concrete fixtures used by witnesses and counterexamples -/

/-- Decimal digit-string decoder, inverse of `Nat.toDigits 10`. -/
def decDigits (s : Label) : Option Nat :=
  if s ≠ [] ∧ s.all (fun ch => ch.isDigit) then
    some (s.foldl (fun acc ch => acc * 10 + (ch.toNat - 48)) 0)
  else none

/-- A concrete codec for `Nat` contents (decimal strings, as
`JSON.stringify` / `JSON.parse` produce for small naturals). -/
def natCodec : Codec Nat :=
  { enc := fun n => Nat.toDigits 10 n, dec := decDigits }

def ownerL : Label := ("OWNER".toList)

/-- A directory whose `localId` is a substring of its `dbId`. -/
def ownedDir : Directory :=
  { dbId := ("ACM:FS.OWNER.LOGS".toList), localId := ownerL }

/-- A directory whose `localId` is not a substring of its `dbId`. -/
def otherDir : Directory :=
  { dbId := ("ACM:FS.OTHER.LOGS".toList), localId := ("ME_PACK".toList) }

def aL : Label := ("a".toList)

def bL : Label := ("b".toList)

/-- One file `a` with content `1`: the ledger state after `write("a", 1)`. -/
def objA : Objective := [{ label := keyOf aL ++ natCodec.enc 1, score := 0 }]

/-- Ledger state after `write("a", 1); write("a", 2)`: both entries present. -/
def objAA : Objective :=
  [{ label := keyOf aL ++ natCodec.enc 1, score := 0 },
   { label := keyOf aL ++ natCodec.enc 2, score := 1 }]

end Acm

deriving instance DecidableEq for Except

namespace Acm

/-! ## Basic lemmas about the embedding -/

theorem isPrefixOf_append_self (p r : Label) : p.isPrefixOf (p ++ r) = true := by
  induction p with
  | nil => simp [List.isPrefixOf]
  | cons a as ih => simp [List.isPrefixOf, ih]

theorem replaceFirst_append (p r : Label) : replaceFirst p (p ++ r) = r := by
  rw [replaceFirst.eq_def, if_pos (isPrefixOf_append_self p r)]
  exact List.drop_left p r

theorem find?_append_of_none {α : Type} {p : α → Bool} {l1 : List α}
    (h : ∀ x ∈ l1, p x = false) (l2 : List α) :
    List.find? p (l1 ++ l2) = List.find? p l2 := by
  induction l1 with
  | nil => rfl
  | cons a as ih =>
    have ha : ¬ p a = true := by simp [h a (List.mem_cons_self a as)]
    simp only [List.cons_append]
    rw [List.find?_cons_of_neg _ ha]
    exact ih (fun x hx => h x (List.mem_cons_of_mem a hx))

theorem find?_some_split {α : Type} {p : α → Bool} :
    ∀ {l : List α} {e : α}, l.find? p = some e →
      ∃ l1 l2, l = l1 ++ e :: l2 ∧ ∀ x ∈ l1, p x = false := by
  intro l
  induction l with
  | nil => intro e h; cases h
  | cons a as ih =>
    intro e h
    by_cases hp : p a = true
    · rw [List.find?_cons_of_pos _ hp] at h
      injection h with he
      subst he
      exact ⟨[], as, rfl, by simp⟩
    · rw [List.find?_cons_of_neg _ hp] at h
      obtain ⟨l1, l2, heq, hall⟩ := ih h
      refine ⟨a :: l1, l2, by rw [heq]; rfl, ?_⟩
      intro x hx
      rcases List.mem_cons.mp hx with h1 | h2
      · subst h1; simpa using hp
      · exact hall x h2

theorem existsFile_false_iff (obj : Objective) (f : Label) :
    existsFile obj f = false ↔ ∀ e ∈ obj, (keyOf f).isPrefixOf e.label = false := by
  unfold existsFile getKeyIdentity
  constructor
  · intro h e he
    have hnone : obj.find? (fun p => (keyOf f).isPrefixOf p.label) = none := by
      cases hfind : obj.find? (fun p => (keyOf f).isPrefixOf p.label) with
      | none => rfl
      | some v => rw [hfind] at h; cases h
    exact Bool.eq_false_iff.mpr (List.find?_eq_none.mp hnone e he)
  · intro h
    have hnone : obj.find? (fun p => (keyOf f).isPrefixOf p.label) = none :=
      List.find?_eq_none.mpr (fun x hx => by simp [h x hx])
    rw [hnone]
    rfl

theorem setScore_append {obj : Objective} {lab : Label}
    (h : ∀ e ∈ obj, e.label ≠ lab) (sc : Int) :
    setScore obj lab sc = obj ++ [{ label := lab, score := sc }] := by
  have hany : obj.any (fun e => e.label == lab) = false := by
    rw [List.any_eq_false]
    intro e he
    simpa using h e he
  simp [setScore, hany]

theorem mem_removeParticipant {i x : Entry} :
    ∀ {obj : Objective}, x ∈ removeParticipant obj i → x ∈ obj := by
  intro obj
  induction obj with
  | nil => intro h; cases h
  | cons e rest ih =>
    intro h
    by_cases hb : (e.label == i.label) = true
    · simp only [removeParticipant, hb, if_true] at h
      exact List.mem_cons_of_mem e h
    · simp only [removeParticipant, hb, if_false] at h
      rcases List.mem_cons.mp h with h1 | h2
      · exact h1 ▸ List.mem_cons_self e rest
      · exact List.mem_cons_of_mem e (ih h2)

theorem find?_cons_pos_entry {f : Label} {a : Entry} (rest : List Entry)
    (hp : (keyOf f).isPrefixOf a.label = true) :
    List.find? (fun x => (keyOf f).isPrefixOf x.label) (a :: rest) = some a :=
  List.find?_cons_of_pos _ hp

theorem find?_cons_neg_entry {f : Label} {a : Entry} (rest : List Entry)
    (hp : ¬ (keyOf f).isPrefixOf a.label = true) :
    List.find? (fun x => (keyOf f).isPrefixOf x.label) (a :: rest)
      = List.find? (fun x => (keyOf f).isPrefixOf x.label) rest :=
  List.find?_cons_of_neg _ hp

theorem filter_cons_pos_entry {f : Label} {a : Entry} (rest : List Entry)
    (hp : (keyOf f).isPrefixOf a.label = true) :
    List.filter (fun x => (keyOf f).isPrefixOf x.label) (a :: rest)
      = a :: List.filter (fun x => (keyOf f).isPrefixOf x.label) rest :=
  List.filter_cons_of_pos hp

theorem filter_cons_neg_entry {f : Label} {a : Entry} (rest : List Entry)
    (hp : ¬ (keyOf f).isPrefixOf a.label = true) :
    List.filter (fun x => (keyOf f).isPrefixOf x.label) (a :: rest)
      = List.filter (fun x => (keyOf f).isPrefixOf x.label) rest :=
  List.filter_cons_of_neg hp

theorem find?_some_entry {f : Label} {l : List Entry} {e : Entry}
    (h : List.find? (fun x => (keyOf f).isPrefixOf x.label) l = some e) :
    (keyOf f).isPrefixOf e.label = true := by
  have h2 := List.find?_some h
  exact h2

theorem removeParticipant_no_match (f : Label) :
    ∀ (obj : Objective) (e : Entry),
      List.find? (fun x => (keyOf f).isPrefixOf x.label) obj = some e →
      (obj.filter (fun x => (keyOf f).isPrefixOf x.label)).length ≤ 1 →
      ∀ x ∈ removeParticipant obj e, (keyOf f).isPrefixOf x.label = false := by
  intro obj
  induction obj with
  | nil => intro e h; cases h
  | cons a rest ih =>
    intro e hfind hlen x hx
    by_cases hp : ((keyOf f).isPrefixOf a.label) = true
    · rw [find?_cons_pos_entry rest hp] at hfind
      injection hfind with he
      subst he
      have hb : (a.label == a.label) = true := by simp
      simp only [removeParticipant, hb, if_true] at hx
      have hfr : rest.filter (fun x => (keyOf f).isPrefixOf x.label) = [] := by
        rw [filter_cons_pos_entry rest hp] at hlen
        simp only [List.length_cons] at hlen
        exact List.length_eq_zero.mp (by omega)
      by_contra hpx
      have hpx' : ((keyOf f).isPrefixOf x.label) = true := by simpa using hpx
      have : x ∈ rest.filter (fun x => (keyOf f).isPrefixOf x.label) :=
        List.mem_filter.mpr ⟨hx, hpx'⟩
      rw [hfr] at this
      cases this
    · rw [find?_cons_neg_entry rest hp] at hfind
      have hpe : ((keyOf f).isPrefixOf e.label) = true := find?_some_entry hfind
      have hlab : (a.label == e.label) = false := by
        by_contra hc
        have hc' : a.label = e.label := by
          have : (a.label == e.label) = true := by simpa using hc
          exact beq_iff_eq.mp this
        rw [hc'] at hp
        exact hp hpe
      simp only [removeParticipant, hlab] at hx
      simp only [Bool.false_eq_true, if_false] at hx
      rcases List.mem_cons.mp hx with h1 | h2
      · subst h1; exact Bool.eq_false_iff.mpr hp
      · have hlen' :
            (rest.filter (fun x => (keyOf f).isPrefixOf x.label)).length ≤ 1 := by
          rwa [filter_cons_neg_entry rest hp] at hlen
        exact ih e hfind hlen' x h2

/-! ## Derived facts about the Directory operations -/

theorem isOwner_ok {d : Directory} (howner : jsIncludes d.dbId d.localId = true) :
    d.isOwner = .ok true := by
  unfold Directory.isOwner
  rw [if_pos howner]

theorem fresh_no_label {obj : Objective} {f : Label}
    (hfresh : existsFile obj f = false) (r : Label) :
    ∀ e ∈ obj, e.label ≠ keyOf f ++ r := by
  intro e he heq
  have h1 := (existsFile_false_iff obj f).mp hfresh e he
  rw [heq, isPrefixOf_append_self] at h1
  cases h1

theorem getKeyIdentity_append_of_none {obj : Objective} {f : Label}
    (h : ∀ e ∈ obj, (keyOf f).isPrefixOf e.label = false) (tail : Objective) :
    getKeyIdentity (obj ++ tail) f = getKeyIdentity tail f := by
  unfold getKeyIdentity
  induction obj with
  | nil => rfl
  | cons a as ih =>
    have ha : ¬ (keyOf f).isPrefixOf a.label = true := by
      rw [h a (List.mem_cons_self a as)]
      simp
    simp only [List.cons_append]
    rw [find?_cons_neg_entry (as ++ tail) ha]
    exact ih (fun x hx => h x (List.mem_cons_of_mem a hx))

theorem read_of_getKeyIdentity {α : Type} (J : Codec α) {obj : Objective}
    {f : Label} {e : Entry} (hgk : getKeyIdentity obj f = some e) :
    Directory.read J obj f = getKeyData J f e := by
  have hex : existsFile obj f = true := by
    unfold existsFile
    rw [hgk]
    rfl
  unfold Directory.read
  rw [hgk, hex]
  simp

theorem read_notFound {α : Type} (J : Codec α) {obj : Objective} {f : Label}
    (h : existsFile obj f = false) :
    Directory.read J obj f = .error (.notFound f) := by
  unfold Directory.read
  rw [h]
  simp

theorem read_append_entry {α : Type} (J : Codec α) {obj : Objective} {f : Label}
    (hno : ∀ e ∈ obj, (keyOf f).isPrefixOf e.label = false) {r : Label} (sc : Int)
    (tail : Objective) {a : α} (hdec : J.dec r = some a) :
    Directory.read J (obj ++ { label := keyOf f ++ r, score := sc } :: tail) f
      = .ok a := by
  have hgk : getKeyIdentity (obj ++ { label := keyOf f ++ r, score := sc } :: tail) f
      = some { label := keyOf f ++ r, score := sc } := by
    rw [getKeyIdentity_append_of_none hno]
    unfold getKeyIdentity
    exact find?_cons_pos_entry tail (isPrefixOf_append_self (keyOf f) r)
  rw [read_of_getKeyIdentity J hgk]
  unfold getKeyData
  rw [replaceFirst_append, hdec]

theorem write_true_appends {α : Type} (J : Codec α) (d : Directory)
    (obj : Objective) (f : Label) (c : α)
    (howner : jsIncludes d.dbId d.localId = true)
    (hnolab : ∀ e ∈ obj, e.label ≠ keyOf f ++ J.enc c) :
    Directory.write d J obj f c true
      = .ok (obj ++ [{ label := keyOf f ++ J.enc c, score := (obj.length : Int) }]) := by
  simp only [Directory.write, isOwner_ok howner, Bool.not_true, Bool.and_false,
    Bool.false_eq_true, if_false]
  rw [setScore_append hnolab]

theorem write_no_overwrite {α : Type} (J : Codec α) (d : Directory)
    (obj : Objective) (f : Label) (c : α)
    (hex : existsFile obj f = true) :
    Directory.write d J obj f c false = .error (.alreadyExists f) := by
  simp only [Directory.write, hex, Bool.not_false, Bool.and_true, if_true]

theorem delete_unfold {d : Directory} {obj : Objective} {f : Label} {e : Entry}
    (howner : jsIncludes d.dbId d.localId = true)
    (hgk : getKeyIdentity obj f = some e) :
    Directory.delete d obj f = .ok (removeParticipant obj e) := by
  have hex : existsFile obj f = true := by
    unfold existsFile
    rw [hgk]
    rfl
  simp only [Directory.delete, hex, isOwner_ok howner, hgk]
  simp

/-! ## Claim theorems -/

/-- Claim C1: the spec says a non-owner `write`/`delete`/`rename`/`copy` is a
silent no-op. On the code it is not: `isOwner` throws
`Directory ... does not belong to addon` before the `if (!this.isOwner())
return;` soft-fail branch can run, so each of the four mutations on a
Directory whose `ownerId` is not a substring of its `dbId` raises that error
(the ledger is still left unchanged, but an error very much escapes to the
caller). This theorem evaluates the embedded code on such a Directory. -/
theorem claimC1_nonowner_mutation_raises :
    Directory.write otherDir natCodec ([] : Objective) aL 1 true
      = .error (.notOwner otherDir.dbId otherDir.localId) ∧
    Directory.delete otherDir objA aL
      = .error (.notOwner otherDir.dbId otherDir.localId) ∧
    Directory.rename otherDir natCodec objA aL bL
      = .error (.notOwner otherDir.dbId otherDir.localId) ∧
    Directory.copy otherDir natCodec objA aL bL
      = .error (.notOwner otherDir.dbId otherDir.localId) := by
  refine ⟨?_, ?_, ?_, ?_⟩ <;> decide

/-- Claim C2 (counterexample): on an owned Directory, after `write(a,1)` then
`write(a,2)` with `allowOverwrite = true`, the old entry is NOT removed (both
entries are in the ledger) and `read(a)` returns `1`, not `2` — the claim
asserts `read(f)` returns `c2` with the old entry removed. -/
theorem claimC2_counterexample :
    Directory.write ownedDir natCodec ([] : Objective) aL 1 true = .ok objA ∧
    Directory.write ownedDir natCodec objA aL 2 true = .ok objAA ∧
    (∃ e ∈ objAA, e.label = keyOf aL ++ natCodec.enc 1) ∧
    Directory.read natCodec objAA aL = .ok 1 ∧
    Directory.read natCodec objAA aL ≠ .ok 2 := by
  refine ⟨?_, ?_, ?_, ?_, ?_⟩ <;> decide

/-- Claim C2 (amended): for an owned Directory and a file name `f` with no
pre-existing matching entry, `write(f,c1)` then `write(f,c2)` with
`allowOverwrite = true` leaves BOTH entries in the ledger (the old entry is
shadowed, not removed) and `read(f)` still returns `c1` (the first matching
entry in insertion order); with `allowOverwrite = false` the second write
fails with `AlreadyExists` and `read(f)` still returns `c1`. -/
theorem claimC2_overwrite_shadowing {α : Type} (J : Codec α) (d : Directory)
    (obj : Objective) (f : Label) (c1 c2 : α)
    (howner : jsIncludes d.dbId d.localId = true)
    (hfresh : existsFile obj f = false)
    (hdec1 : J.dec (J.enc c1) = some c1)
    (hneq : J.enc c1 ≠ J.enc c2) :
    ∃ obj1 obj2,
      Directory.write d J obj f c1 true = .ok obj1 ∧
      Directory.write d J obj1 f c2 true = .ok obj2 ∧
      (∃ e ∈ obj2, e.label = keyOf f ++ J.enc c1) ∧
      (∃ e ∈ obj2, e.label = keyOf f ++ J.enc c2) ∧
      Directory.read J obj2 f = .ok c1 ∧
      Directory.write d J obj1 f c2 false = .error (.alreadyExists f) ∧
      Directory.read J obj1 f = .ok c1 := by
  have hno : ∀ e ∈ obj, (keyOf f).isPrefixOf e.label = false :=
    (existsFile_false_iff obj f).mp hfresh
  set e1 : Entry := { label := keyOf f ++ J.enc c1, score := (obj.length : Int) }
    with he1
  have hw1 : Directory.write d J obj f c1 true = .ok (obj ++ [e1]) :=
    write_true_appends J d obj f c1 howner (fresh_no_label hfresh (J.enc c1))
  have hnolab2 : ∀ e ∈ obj ++ [e1], e.label ≠ keyOf f ++ J.enc c2 := by
    intro e he
    rcases List.mem_append.mp he with h1 | h2
    · exact fresh_no_label hfresh (J.enc c2) e h1
    · rw [List.mem_singleton] at h2
      subst h2
      rw [he1]
      intro hc
      exact hneq (List.append_cancel_left hc)
  set e2 : Entry :=
      { label := keyOf f ++ J.enc c2, score := ((obj ++ [e1]).length : Int) }
    with he2
  have hw2 : Directory.write d J (obj ++ [e1]) f c2 true
      = .ok ((obj ++ [e1]) ++ [e2]) :=
    write_true_appends J d (obj ++ [e1]) f c2 howner hnolab2
  have hex1 : existsFile (obj ++ [e1]) f = true := by
    unfold existsFile
    rw [getKeyIdentity_append_of_none hno]
    unfold getKeyIdentity
    rw [find?_cons_pos_entry [] (by rw [he1]; exact isPrefixOf_append_self _ _)]
    rfl
  refine ⟨obj ++ [e1], (obj ++ [e1]) ++ [e2], hw1, hw2, ?_, ?_, ?_, ?_, ?_⟩
  · exact ⟨e1, by simp, by rw [he1]⟩
  · exact ⟨e2, by simp, by rw [he2]⟩
  · rw [List.append_assoc, List.singleton_append]
    exact read_append_entry J hno (obj.length : Int) [e2] hdec1
  · exact write_no_overwrite J d (obj ++ [e1]) f c2 hex1
  · exact read_append_entry J hno (obj.length : Int) [] hdec1

/-- Claim C2 (witness): the amended theorem applied at an owned Directory,
an empty ledger, file `a` and contents `1`, `2`. -/
theorem claimC2_witness :
    ∃ obj1 obj2,
      Directory.write ownedDir natCodec ([] : Objective) aL 1 true = .ok obj1 ∧
      Directory.write ownedDir natCodec obj1 aL 2 true = .ok obj2 ∧
      (∃ e ∈ obj2, e.label = keyOf aL ++ natCodec.enc 1) ∧
      (∃ e ∈ obj2, e.label = keyOf aL ++ natCodec.enc 2) ∧
      Directory.read natCodec obj2 aL = .ok 1 ∧
      Directory.write ownedDir natCodec obj1 aL 2 false
        = .error (.alreadyExists aL) ∧
      Directory.read natCodec obj1 aL = .ok 1 :=
  claimC2_overwrite_shadowing natCodec ownedDir [] aL 1 2 (by decide) (by decide)
    (by decide) (by decide)

/-- Claim C3 (counterexample): when an entry for `a` already exists (content
`1`), an owned `write(a, 2)` followed by `read(a)` returns the OLD content
`1`, not the just-written `2` — the claim quantifies over every owned
Directory state and so fails here. -/
theorem claimC3_counterexample :
    Directory.write ownedDir natCodec objA aL 2 true = .ok objAA ∧
    Directory.read natCodec objAA aL = .ok 1 ∧
    Directory.read natCodec objAA aL ≠ .ok 2 := by
  refine ⟨?_, ?_, ?_⟩ <;> decide

/-- Claim C3 (amended): for an owned Directory, if no entry matching `f`
exists yet, then `write(f,c)` followed by `read(f)` returns `c` (for any
content on which the serialization round-trips). -/
theorem claimC3_write_read {α : Type} (J : Codec α) (d : Directory)
    (obj : Objective) (f : Label) (c : α)
    (howner : jsIncludes d.dbId d.localId = true)
    (hfresh : existsFile obj f = false)
    (hdec : J.dec (J.enc c) = some c) :
    ∃ obj1, Directory.write d J obj f c true = .ok obj1 ∧
      Directory.read J obj1 f = .ok c := by
  have hno : ∀ e ∈ obj, (keyOf f).isPrefixOf e.label = false :=
    (existsFile_false_iff obj f).mp hfresh
  refine ⟨obj ++ [{ label := keyOf f ++ J.enc c, score := (obj.length : Int) }],
    write_true_appends J d obj f c howner (fresh_no_label hfresh (J.enc c)), ?_⟩
  exact read_append_entry J hno (obj.length : Int) [] hdec

/-- Claim C3 (witness): the amended theorem at an owned Directory, empty
ledger, file `a`, content `1`. -/
theorem claimC3_witness :
    ∃ obj1, Directory.write ownedDir natCodec ([] : Objective) aL 1 true = .ok obj1 ∧
      Directory.read natCodec obj1 aL = .ok 1 :=
  claimC3_write_read natCodec ownedDir [] aL 1 (by decide) (by decide) (by decide)

/-- Claim C4 (counterexample): in the shadowed state reached by
`write(a,1); write(a,2)` two entries match `a`; `delete(a)` succeeds but only
removes the first matching entry, so afterwards `exists(a)` is still `true`
and `read(a)` succeeds (returning the shadowed `2`) — the claim asserts
`exists(a) = false` and `read(a)` fails with `NotFound` after any successful
delete. -/
theorem claimC4_counterexample :
    Directory.delete ownedDir objAA aL
      = .ok [{ label := keyOf aL ++ natCodec.enc 2, score := 1 }] ∧
    existsFile [{ label := keyOf aL ++ natCodec.enc 2, score := 1 }] aL = true ∧
    Directory.read natCodec [{ label := keyOf aL ++ natCodec.enc 2, score := 1 }] aL
      = .ok 2 := by
  refine ⟨?_, ?_, ?_⟩ <;> decide

/-- Claim C4 (amended): for an owned Directory, `delete(f)` fails with
`NotFound` when no entry matches `f`; and when exactly ONE entry matches `f`,
a successful `delete(f)` leaves `exists(f) = false` and `read(f)` failing
with `NotFound`. (With several matching entries — reachable via shadowing
writes — only the first is removed and `exists(f)` stays true.) -/
theorem claimC4_delete {α : Type} (J : Codec α) (d : Directory)
    (obj : Objective) (f : Label)
    (howner : jsIncludes d.dbId d.localId = true) :
    (existsFile obj f = false → Directory.delete d obj f = .error (.notFound f)) ∧
    ((obj.filter (fun x => (keyOf f).isPrefixOf x.label)).length = 1 →
      ∃ obj2, Directory.delete d obj f = .ok obj2 ∧ existsFile obj2 f = false ∧
        Directory.read J obj2 f = .error (.notFound f)) := by
  constructor
  · intro hfresh
    unfold Directory.delete
    rw [hfresh]
    simp
  · intro hlen
    cases hgi : getKeyIdentity obj f with
    | none =>
      exfalso
      have hnone : List.find? (fun x => (keyOf f).isPrefixOf x.label) obj = none := hgi
      have hnil : obj.filter (fun x => (keyOf f).isPrefixOf x.label) = [] :=
        List.filter_eq_nil_iff.mpr (List.find?_eq_none.mp hnone)
      rw [hnil] at hlen
      cases hlen
    | some e =>
      have hnom : ∀ x ∈ removeParticipant obj e, (keyOf f).isPrefixOf x.label = false :=
        removeParticipant_no_match f obj e hgi (by rw [hlen])
      have hex2 : existsFile (removeParticipant obj e) f = false :=
        (existsFile_false_iff _ f).mpr hnom
      exact ⟨removeParticipant obj e, delete_unfold howner hgi, hex2,
        read_notFound J hex2⟩

/-- Claim C4 (witness): the amended theorem at an owned Directory — the
`NotFound` case on an empty ledger, and the successful-delete case on a
ledger holding exactly one entry for `a`. -/
theorem claimC4_witness :
    Directory.delete ownedDir ([] : Objective) aL = .error (.notFound aL) ∧
    (∃ obj2, Directory.delete ownedDir objA aL = .ok obj2 ∧
      existsFile obj2 aL = false ∧
      Directory.read natCodec obj2 aL = .error (.notFound aL)) :=
  ⟨(claimC4_delete natCodec ownedDir [] aL (by decide)).1 (by decide),
   (claimC4_delete natCodec ownedDir objA aL (by decide)).2 (by decide)⟩

/-- Claim C5 (counterexample): in the shadowed state `write(a,1); write(a,2)`,
`rename(a,b)` succeeds but only the first matching `a`-entry is deleted, so
afterwards `exists(a)` is still `true` — the claim asserts `exists(old)`
becomes `false` whenever `old` existed and `new` did not. -/
theorem claimC5_counterexample :
    Directory.rename ownedDir natCodec objAA aL bL
      = .ok [{ label := keyOf aL ++ natCodec.enc 2, score := 1 },
             { label := keyOf bL ++ natCodec.enc 1, score := 1 }] ∧
    existsFile [{ label := keyOf aL ++ natCodec.enc 2, score := 1 },
                { label := keyOf bL ++ natCodec.enc 1, score := 1 }] aL = true := by
  refine ⟨?_, ?_⟩ <;> decide

/-- Claim C5 (amended): for an owned Directory, `rename(old,new)` fails with
`NotFound` when `old` is absent (this check runs first, so it also wins when
`new` simultaneously exists), and with `AlreadyExists` when `old` is present
and `new` exists. When `read(old)` returned `a`, `new` is absent, the
`old`-entry is the unique match for `old`, the serialization of `a`
round-trips, and the freshly written label `new ++ ":" ++ enc a` does not
itself match the `old` prefix, then after the rename `exists(old) = false`,
`exists(new) = true`, and `read(new)` returns `a`. -/
theorem claimC5_rename {α : Type} (J : Codec α) (d : Directory)
    (obj : Objective) (oldF newF : Label) (a : α)
    (howner : jsIncludes d.dbId d.localId = true) :
    (existsFile obj oldF = false →
      Directory.rename d J obj oldF newF = .error (.notFound oldF)) ∧
    (existsFile obj oldF = true → existsFile obj newF = true →
      Directory.rename d J obj oldF newF = .error (.alreadyExists newF)) ∧
    (Directory.read J obj oldF = .ok a → existsFile obj newF = false →
      (obj.filter (fun x => (keyOf oldF).isPrefixOf x.label)).length ≤ 1 →
      J.dec (J.enc a) = some a →
      (keyOf oldF).isPrefixOf (keyOf newF ++ J.enc a) = false →
      ∃ obj2, Directory.rename d J obj oldF newF = .ok obj2 ∧
        existsFile obj2 oldF = false ∧ existsFile obj2 newF = true ∧
        Directory.read J obj2 newF = .ok a) := by
  refine ⟨?_, ?_, ?_⟩
  · intro hfresh
    unfold Directory.rename
    rw [hfresh]
    simp
  · intro hexOld hexNew
    unfold Directory.rename
    rw [hexOld, hexNew]
    simp
  · intro hro hexNew huniq hdec hsep
    cases hgi : getKeyIdentity obj oldF with
    | none =>
      exfalso
      have hexf : existsFile obj oldF = false := by
        unfold existsFile
        rw [hgi]
        rfl
      rw [read_notFound J hexf] at hro
      exact Except.noConfusion hro
    | some i =>
      have hexOld : existsFile obj oldF = true := by
        unfold existsFile
        rw [hgi]
        rfl
      have hgd : getKeyData J oldF i = .ok a := by
        rw [read_of_getKeyIdentity J hgi] at hro
        exact hro
      have hdel : Directory.delete d obj oldF = .ok (removeParticipant obj i) :=
        delete_unfold howner hgi
      have hnomOld : ∀ x ∈ removeParticipant obj i,
          (keyOf oldF).isPrefixOf x.label = false :=
        removeParticipant_no_match oldF obj i hgi huniq
      have hnoNew : ∀ e ∈ obj, (keyOf newF).isPrefixOf e.label = false :=
        (existsFile_false_iff obj newF).mp hexNew
      have hnoNew2 : ∀ x ∈ removeParticipant obj i,
          (keyOf newF).isPrefixOf x.label = false :=
        fun x hx => hnoNew x (mem_removeParticipant hx)
      have hnolab : ∀ e ∈ removeParticipant obj i,
          e.label ≠ keyOf newF ++ J.enc a := by
        intro e he heq
        have h1 := hnoNew2 e he
        rw [heq, isPrefixOf_append_self] at h1
        cases h1
      set ent : Entry :=
        ⟨keyOf newF ++ J.enc a, ((removeParticipant obj i).length : Int)⟩ with hent
      have hwr : Directory.write d J (removeParticipant obj i) newF a true
          = .ok (removeParticipant obj i ++ [ent]) :=
        write_true_appends J d (removeParticipant obj i) newF a howner hnolab
      have hren : Directory.rename d J obj oldF newF
          = .ok (removeParticipant obj i ++ [ent]) := by
        unfold Directory.rename
        rw [hexOld, hexNew, isOwner_ok howner, hgi]
        simp only [hgd, hdel, hwr]
        simp
      refine ⟨removeParticipant obj i ++ [ent], hren, ?_, ?_, ?_⟩
      · apply (existsFile_false_iff _ oldF).mpr
        intro e he
        rcases List.mem_append.mp he with h1 | h2
        · exact hnomOld e h1
        · rw [List.mem_singleton] at h2
          subst h2
          rw [hent]
          exact hsep
      · unfold existsFile
        rw [getKeyIdentity_append_of_none hnoNew2]
        unfold getKeyIdentity
        rw [find?_cons_pos_entry [] (by rw [hent]; exact isPrefixOf_append_self _ _)]
        rfl
      · exact read_append_entry J hnoNew2 ((removeParticipant obj i).length : Int)
          [] hdec

/-- Claim C5 (witness): the amended theorem at an owned Directory — the
`NotFound` case on an empty ledger, the `AlreadyExists` case when `b` already
exists, and the successful rename of the single-entry file `a` to `b`. -/
theorem claimC5_witness :
    Directory.rename ownedDir natCodec ([] : Objective) aL bL
      = .error (.notFound aL) ∧
    Directory.rename ownedDir natCodec
      (objA ++ [{ label := keyOf bL ++ natCodec.enc 2, score := 1 }]) aL bL
      = .error (.alreadyExists bL) ∧
    (∃ obj2, Directory.rename ownedDir natCodec objA aL bL = .ok obj2 ∧
      existsFile obj2 aL = false ∧ existsFile obj2 bL = true ∧
      Directory.read natCodec obj2 bL = .ok 1) :=
  ⟨(claimC5_rename natCodec ownedDir [] aL bL 1 (by decide)).1 (by decide),
   (claimC5_rename natCodec ownedDir
      (objA ++ [{ label := keyOf bL ++ natCodec.enc 2, score := 1 }]) aL bL 1
      (by decide)).2.1 (by decide) (by decide),
   (claimC5_rename natCodec ownedDir objA aL bL 1 (by decide)).2.2 (by decide)
      (by decide) (by decide) (by decide) (by decide)⟩

/-! ## Signal Bus lemmas -/

theorem emitLoop_fst (run : CallbackId → Except Label Unit) :
    ∀ l : List CallbackId, (emitLoop run l).map Prod.fst = l := by
  intro l
  induction l with
  | nil => rfl
  | cons c rest ih =>
    cases hrc : run c with
    | ok v => simp [emitLoop, hrc, ih]
    | error e => simp [emitLoop, hrc, ih]

theorem mem_SignalSet_add (s : List CallbackId) (c : CallbackId) :
    c ∈ SignalSet.add s c := by
  unfold SignalSet.add
  by_cases h : s.contains c = true
  · rw [if_pos h]
    exact List.elem_iff.mp h
  · rw [if_neg h]
    simp

theorem SignalSet_add_of_mem {s : List CallbackId} {c : CallbackId} (h : c ∈ s) :
    SignalSet.add s c = s := by
  unfold SignalSet.add
  rw [if_pos (List.elem_iff.mpr h)]

theorem nodup_SignalSet_add {s : List CallbackId} (h : s.Nodup) (c : CallbackId) :
    (SignalSet.add s c).Nodup := by
  unfold SignalSet.add
  by_cases hc : s.contains c = true
  · rw [if_pos hc]
    exact h
  · rw [if_neg hc]
    rw [List.nodup_append]
    refine ⟨h, List.nodup_singleton c, ?_⟩
    intro x hx hx2
    rw [List.mem_singleton] at hx2
    subst hx2
    exact hc (List.elem_iff.mpr hx)

/-! ## Signal Bus claim theorems -/

/-- Claim C6: on any Signal Bus channel (all four channel classes share this
subscriber-set behaviour, embedded as `SignalSet` plus the `emitLoop` used by
every `emit`), subscribing the same callback twice leaves exactly one
subscription — an emit invokes the callback exactly once — and after
unsubscribing it, a subsequent emit does not invoke it at all. -/
theorem claimC6_subscribe_once (subs : List CallbackId) (c : CallbackId)
    (run run2 : CallbackId → Except Label Unit) (hnd : subs.Nodup) :
    ((emitLoop run (SignalSet.add (SignalSet.add subs c) c)).map Prod.fst).count c
      = 1 ∧
    c ∉ (emitLoop run2
          (SignalSet.remove (SignalSet.add (SignalSet.add subs c) c) c)).map
        Prod.fst := by
  have hadd : SignalSet.add (SignalSet.add subs c) c = SignalSet.add subs c :=
    SignalSet_add_of_mem (mem_SignalSet_add subs c)
  have hnd1 : (SignalSet.add subs c).Nodup := nodup_SignalSet_add hnd c
  constructor
  · rw [emitLoop_fst, hadd]
    exact List.count_eq_one_of_mem hnd1 (mem_SignalSet_add subs c)
  · rw [emitLoop_fst, hadd]
    unfold SignalSet.remove
    intro hc
    exact (hnd1.mem_erase_iff.mp hc).1 rfl

/-- Claim C6 (witness): two subscriptions of callback `2` on the subscriber
set `[1]` followed by an emit, then an unsubscribe and another emit. -/
theorem claimC6_witness :
    ((emitLoop (fun _ => .ok ()) (SignalSet.add (SignalSet.add [1] 2) 2)).map
        Prod.fst).count 2 = 1 ∧
    2 ∉ (emitLoop (fun _ => .ok ())
          (SignalSet.remove (SignalSet.add (SignalSet.add [1] 2) 2) 2)).map
        Prod.fst :=
  claimC6_subscribe_once [1] 2 (fun _ => .ok ()) (fun _ => .ok ()) (by decide)

theorem emitLoop_error_mem (run : CallbackId → Except Label Unit) :
    ∀ {l : List CallbackId} {c : CallbackId} {e : Label}, c ∈ l →
      run c = .error e → (c, some e) ∈ emitLoop run l := by
  intro l
  induction l with
  | nil => intro c e hc _; cases hc
  | cons a rest ih =>
    intro c e hc hrc
    rcases List.mem_cons.mp hc with h1 | h2
    · subst h1
      simp [emitLoop, hrc]
    · cases hra : run a with
      | ok v =>
        simp only [emitLoop, hra]
        exact List.mem_cons_of_mem _ (ih h2 hrc)
      | error e2 =>
        simp only [emitLoop, hra]
        exact List.mem_cons_of_mem _ (ih h2 hrc)

/-- Claim C7: `emit` iterates the whole subscriber list even when some
callback throws: the trace produced by the embedded `try/catch` loop invokes
every subscriber exactly once, in order; the thrown error is caught and
recorded in the trace (`some message`) for the throwing subscriber; and
`emitLoop` is a total function, so nothing propagates to the emitter. -/
theorem claimC7_emit_isolates (subs : List CallbackId)
    (run : CallbackId → Except Label Unit)
    (hthrow : ∃ c ∈ subs, ∃ e, run c = .error e) :
    (emitLoop run subs).map Prod.fst = subs ∧
    (emitLoop run subs).length = subs.length ∧
    (∃ c e, (c, some e) ∈ emitLoop run subs) := by
  refine ⟨emitLoop_fst run subs, ?_, ?_⟩
  · calc (emitLoop run subs).length
        = ((emitLoop run subs).map Prod.fst).length := (List.length_map _ _).symm
      _ = subs.length := by rw [emitLoop_fst run subs]
  · obtain ⟨c, hc, e, he⟩ := hthrow
    exact ⟨c, e, emitLoop_error_mem run hc he⟩

/-- Claim C7 (witness): subscribers `[1, 2, 3]` where callback `2` throws:
all three are invoked. -/
theorem claimC7_witness :
    (emitLoop (fun c => if c == 2 then .error ("boom".toList) else .ok ())
        [1, 2, 3]).map Prod.fst = [1, 2, 3] ∧
    (emitLoop (fun c => if c == 2 then .error ("boom".toList) else .ok ())
        [1, 2, 3]).length = [1, 2, 3].length ∧
    (∃ c e, (c, some e) ∈ emitLoop
        (fun c => if c == 2 then .error ("boom".toList) else .ok ()) [1, 2, 3]) :=
  claimC7_emit_isolates [1, 2, 3]
    (fun c => if c == 2 then .error ("boom".toList) else .ok ())
    ⟨2, by decide, ("boom".toList), rfl⟩

/-- Claim C10: each of the four signal classes keeps its subscribers in a
single class-level (static) set: instances carry no per-instance state, so
subscribing through any instance updates the one shared `BusState` field of
that class identically, and the class's static `emit` invokes a callback
subscribed through any instance. -/
theorem claimC10_static_subscriber_sets
    (i1 i2 : OnAddonReadyEventSignal) (j1 j2 : OnCustomSignalEmittedEventSignal)
    (k1 k2 : OnSettingsChangedEventSignal) (l1 l2 : OnExtensionTriggerdEventSignal)
    (st : BusState) (c : CallbackId) (run : CallbackId → Except Label Unit) :
    (i1.subscribe st c = i2.subscribe st c ∧
      c ∈ (OnAddonReadyEventSignal.emit (i1.subscribe st c) run).map Prod.fst) ∧
    (j1.subscribe st c = j2.subscribe st c ∧
      c ∈ (OnCustomSignalEmittedEventSignal.emit (j1.subscribe st c) run).map
        Prod.fst) ∧
    (k1.subscribe st c = k2.subscribe st c ∧
      c ∈ (OnSettingsChangedEventSignal.emit (k1.subscribe st c) run).map
        Prod.fst) ∧
    (l1.subscribe st c = l2.subscribe st c ∧
      c ∈ (OnExtensionTriggerdEventSignal.emit (l1.subscribe st c) run).map
        Prod.fst) := by
  cases i1; cases i2; cases j1; cases j2; cases k1; cases k2; cases l1; cases l2
  refine ⟨⟨rfl, ?_⟩, ⟨rfl, ?_⟩, ⟨rfl, ?_⟩, ⟨rfl, ?_⟩⟩
  · rw [OnAddonReadyEventSignal.emit, emitLoop_fst]
    exact mem_SignalSet_add st.addonReadySubs c
  · rw [OnCustomSignalEmittedEventSignal.emit, emitLoop_fst]
    exact mem_SignalSet_add st.customSignalSubs c
  · rw [OnSettingsChangedEventSignal.emit, emitLoop_fst]
    exact mem_SignalSet_add st.settingsChangedSubs c
  · rw [OnExtensionTriggerdEventSignal.emit, emitLoop_fst]
    exact mem_SignalSet_add st.extensionTriggerdSubs c

/-! ## Registry lemmas -/

theorem FsDir_get_some {fd : FsDir} {localId : Label} {sb : Scoreboard}
    {name : Label} {db : Directory}
    (h : FsDir.get fd localId sb name = some db) :
    db = { dbId := fd.format name, localId := localId } := by
  unfold FsDir.get at h
  cases hgo : getObjective sb (fd.format name) with
  | none => rw [hgo] at h; cases h
  | some o =>
    rw [hgo] at h
    injection h with h2
    exact h2.symm

theorem FsDir_new_dbId (fd : FsDir) (localId : Label) (sb : Scoreboard)
    (name : Label) (w : Bool) :
    ((FsDir.new fd localId sb name w).2).dbId = fd.format name := by
  unfold FsDir.new
  by_cases hv : fd.isValid sb name = true
  · rw [if_pos hv]
    cases hget : fd.get localId sb name with
    | none => rfl
    | some db => rw [FsDir_get_some hget]
  · rw [if_neg hv]

theorem find?_removeObjective_none {sb : Scoreboard} {fn : Label}
    (hnd : (sb.map Prod.fst).Nodup) :
    List.find? (fun o => o.1 == fn) (removeObjective sb fn) = none := by
  induction sb with
  | nil => rfl
  | cons p rest ih =>
    obtain ⟨n, o⟩ := p
    have hnd2 := List.nodup_cons.mp hnd
    by_cases hb : (n == fn) = true
    · simp only [removeObjective, hb, if_true]
      apply List.find?_eq_none.mpr
      intro x hx hbx
      apply hnd2.1
      have hmem : x.1 ∈ rest.map Prod.fst := List.mem_map_of_mem Prod.fst hx
      have hxf : x.1 = fn := by
        have hbx2 : (x.1 == fn) = true := hbx
        exact beq_iff_eq.mp hbx2
      have hnf : n = fn := beq_iff_eq.mp hb
      rw [hnf, ← hxf]
      exact hmem
    · simp only [removeObjective, hb]
      simp only [Bool.false_eq_true, if_false]
      have hstep : List.find? (fun o => o.1 == fn)
          ((n, o) :: removeObjective rest fn)
          = List.find? (fun o => o.1 == fn) (removeObjective rest fn) :=
        List.find?_cons_of_neg _ (by simpa using hb)
      rw [hstep]
      exact ih hnd2.2

/-- Claim C8: calling the registry's `new(name)` when a ledger named
`format(name)` already exists returns — without any error — a Directory
backed by that existing ledger (same `dbId`, scoreboard untouched); two
successive `new(name)` calls yield Directories with the same `dbId`; and
after a successful `delete(name)`, `get(name)` resolves to absent. The
objective-id column of the scoreboard is assumed duplicate-free, which the
host guarantees (`addObjective` on an existing id throws). -/
theorem claimC8_registry_idempotent (fd : FsDir) (localId : Label)
    (sb : Scoreboard) (name : Label) (w1 w2 : Bool) :
    ((getObjective sb (fd.format name)).isSome = true →
      FsDir.new fd localId sb name w1
        = (sb, { dbId := fd.format name, localId := localId })) ∧
    ((FsDir.new fd localId sb name w1).2).dbId
      = ((FsDir.new fd localId (FsDir.new fd localId sb name w1).1 name w2).2).dbId ∧
    ((sb.map Prod.fst).Nodup → ∀ sb2, FsDir.delete fd localId sb name = .ok sb2 →
      FsDir.get fd localId sb2 name = none) := by
  refine ⟨?_, ?_, ?_⟩
  · intro hsome
    obtain ⟨o, ho⟩ := Option.isSome_iff_exists.mp hsome
    have hvalid : fd.isValid sb name = true := by
      unfold FsDir.isValid
      rw [ho]
      rfl
    have hget : fd.get localId sb name
        = some { dbId := fd.format name, localId := localId } := by
      unfold FsDir.get
      rw [ho]
    unfold FsDir.new
    rw [if_pos hvalid, hget]
  · rw [FsDir_new_dbId, FsDir_new_dbId]
  · intro hnd sb2 hdel
    unfold FsDir.delete at hdel
    cases hget : fd.get localId sb name with
    | none => rw [hget] at hdel; cases hdel
    | some dir =>
      rw [hget] at hdel
      injection hdel with h2
      subst h2
      unfold FsDir.get getObjective
      rw [find?_removeObjective_none hnd]
      rfl

def fdW : FsDir := { format := fun n => ("ACM:FS.OWNER.".toList) ++ n }

def nameW : Label := ("LOGS".toList)

/-- Claim C8 (witness): on a scoreboard already holding the formatted ledger,
`new` returns the existing ledger's Directory without touching the
scoreboard, and `delete` followed by `get` resolves to absent. -/
theorem claimC8_witness :
    FsDir.new fdW ownerL [(fdW.format nameW, [])] nameW true
      = ([(fdW.format nameW, [])],
         { dbId := fdW.format nameW, localId := ownerL }) ∧
    FsDir.get fdW ownerL ([] : Scoreboard) nameW = none :=
  ⟨(claimC8_registry_idempotent fdW ownerL [(fdW.format nameW, [])] nameW
      true true).1 (by decide),
   (claimC8_registry_idempotent fdW ownerL [(fdW.format nameW, [])] nameW
      true true).2.2 (by decide) [] (by decide)⟩

/-! ## Settings claim theorem -/

/-- Claim C9: when loading settings data (flat or per-category), the raw
settings blob is the ledger entry found by `getRawSettingsData`, which is
exactly the FIRST participant whose integer score is `0` (every earlier
participant has a nonzero score); and when no participant's score is `0`,
the per-ledger settings object comes back empty. -/
theorem claimC9_settings_blob (db : Objective) :
    (∀ e, getRawSettingsData db = some e →
      e.score = 0 ∧ ∃ l1 l2, db = l1 ++ e :: l2 ∧ ∀ x ∈ l1, x.score ≠ 0) ∧
    ((∀ e ∈ db, e.score ≠ 0) → ∀ parse,
      processFlatSettings parse (some db) = [] ∧
      processCategorySettings parse (some db) = []) := by
  constructor
  · intro e h
    have hfind : db.find? (fun participant => participant.score == 0) = some e := h
    have hscore : (e.score == 0) = true := by
      have h2 := List.find?_some hfind
      exact h2
    refine ⟨beq_iff_eq.mp hscore, ?_⟩
    obtain ⟨l1, l2, heq, hall⟩ := find?_some_split hfind
    refine ⟨l1, l2, heq, ?_⟩
    intro x hx hx0
    have hbx := hall x hx
    rw [hx0] at hbx
    simp at hbx
  · intro h parse
    have hnone : getRawSettingsData db = none := by
      unfold getRawSettingsData
      apply List.find?_eq_none.mpr
      intro x hx hbx
      exact h x hx (beq_iff_eq.mp hbx)
    constructor
    · simp [processFlatSettings, hnone]
    · simp [processCategorySettings, hnone]

/-- Claim C9 (witness): on a ledger whose second entry has score `0`, the
blob is that entry (with the first, nonzero entry skipped); on a ledger with
only nonzero scores, both loaders return the empty object. -/
theorem claimC9_witness :
    ({ label := aL, score := 5 } : Entry).score ≠ 0 ∧
    (∃ l1 l2,
      [({ label := aL, score := 5 } : Entry), { label := bL, score := 0 }]
        = l1 ++ ({ label := bL, score := 0 } : Entry) :: l2 ∧
      ∀ x ∈ l1, x.score ≠ 0) ∧
    processFlatSettings (fun _ => [])
      (some [({ label := aL, score := 5 } : Entry)]) = [] ∧
    processCategorySettings (fun _ => [])
      (some [({ label := aL, score := 5 } : Entry)]) = [] := by
  refine ⟨by decide, ?_, ?_, ?_⟩
  · exact ((claimC9_settings_blob
      [{ label := aL, score := 5 }, { label := bL, score := 0 }]).1
      { label := bL, score := 0 } (by decide)).2
  · exact ((claimC9_settings_blob [{ label := aL, score := 5 }]).2
      (by decide) (fun _ => [])).1
  · exact ((claimC9_settings_blob [{ label := aL, score := 5 }]).2
      (by decide) (fun _ => [])).2

end Acm
